import Mathlib

/-!
Verification of the rust-context entry-classification core.

The development shallowly embeds the core of the program: the scanner
(src/app/scanner.rs), the output generator (src/app/formatter.rs), the
configuration merge (src/app/config.rs) and the orchestration (src/app.rs).

Modelling conventions:
* A filesystem path is a list of components (List String); the absolute
  path of an entry is root ++ relative components, exactly the shape the
  walker hands to Scanner::process_entry.
* The glob engine (the external globset crate) is abstracted by a
  single-pattern matcher parameter globMatch : String → String → Bool;
  a compiled GlobSet built from a pattern list matches a path iff some
  pattern matches it (isMatch below), which is the documented semantics
  of GlobSet::is_match and in particular makes the empty set match
  nothing.
* The walker (the ignore crate) is abstracted by the list of items it
  yields: every successfully visited path paired with its is-directory
  flag.  The walker only yields the root and paths beneath it, so
  pathdiff::diff_paths is modelled by component peeling (relativeTo).
* File reading (fs::read_to_string) is abstracted by a function
  readFile : List String → Except String String returning the text or
  the error message.
-/

namespace RustContext

/-- GlobSet::is_match for a set compiled from the given pattern list:
true iff at least one pattern matches the relative path. -/
def isMatch (globMatch : String → String → Bool) (patterns : List String)
    (path : String) : Bool :=
  patterns.any (fun p => globMatch p path)

/-- pathdiff::diff_paths(path, root) for paths at or beneath the root:
peel the root's components off the front; none when root is not an
initial segment (the walker never yields such a path). -/
def relativeTo : List String → List String → Option (List String)
  | [], p => some p
  | _ :: _, [] => none
  | r :: rs, p :: ps => if r = p then relativeTo rs ps else none

/-- Path::to_string_lossy on a relative path: components joined by
forward slashes. -/
def joinPath (rel : List String) : String :=
  String.intercalate "/" rel

/-- Strict lexicographic comparison of character lists, the order Rust
uses on the underlying units of a path component. -/
def charListLt : List Char → List Char → Bool
  | _, [] => false
  | [], _ :: _ => true
  | a :: as, b :: bs => if a < b then true else if a = b then charListLt as bs else false

/-- Strict lexicographic comparison of two path components. -/
def strLt (a b : String) : Bool := charListLt a.data b.data

/-- Rust's PathBuf::cmp as a less-or-equal test: componentwise
lexicographic order on the component lists. -/
def pathLe : List String → List String → Bool
  | [], _ => true
  | _ :: _, [] => false
  | a :: as, b :: bs => if strLt a b then true else if a = b then pathLe as bs else false

/-- RuntimeConfig from src/app/models.rs. -/
structure RuntimeConfig where
  «include» : List String
  exclude : List String
  include_in_tree : List String
  tree_only_output : Bool
deriving DecidableEq, Repr

/-- One item yielded by the ignore-crate walker: the visited absolute
path and whether it is a directory. -/
structure WalkItem where
  path : List String
  isDir : Bool
deriving DecidableEq, Repr

/-- FileEntry from src/app/models.rs. -/
structure FileEntry where
  path : List String
  relative_path : String
  depth : Nat
  is_dir : Bool
  include_content : Bool
deriving DecidableEq, Repr

/-- Scanner::process_entry from src/app/scanner.rs: skip the root, skip
anything with a .git component, drop excluded paths, keep directories,
keep files matching include or tree-only, and mark content eligibility. -/
def process_entry (globMatch : String → String → Bool) (root : List String)
    (config : RuntimeConfig) (item : WalkItem) : Option FileEntry :=
  if item.path = root then none
  else if item.path.any (fun c => c = ".git") then none
  else
    match relativeTo root item.path with
    | none => none
    | some rel =>
      let relative_str := joinPath rel
      if isMatch globMatch config.exclude relative_str then none
      else
        let matches_include := isMatch globMatch config.«include» relative_str
        let matches_tree := isMatch globMatch config.include_in_tree relative_str
        if !item.isDir && !matches_include && !matches_tree then none
        else
          some { path := item.path
                 relative_path := relative_str
                 depth := rel.length
                 is_dir := item.isDir
                 include_content := !item.isDir && matches_include && !matches_tree }

/-- Sort key of Scanner::scan: entries compared by absolute path. -/
def entryLe (a b : FileEntry) : Prop := pathLe a.path b.path = true

instance : DecidableRel entryLe := fun a b =>
  inferInstanceAs (Decidable (pathLe a.path b.path = true))

/-- Scanner::scan from src/app/scanner.rs: classify every walked item
and sort the survivors by absolute path. -/
def scan (globMatch : String → String → Bool) (root : List String)
    (config : RuntimeConfig) (walk : List WalkItem) : List FileEntry :=
  List.insertionSort entryLe (walk.filterMap (process_entry globMatch root config))

/-- str::repeat for the four-space indentation unit. -/
def repeatStr : Nat → String → String
  | 0, _ => ""
  | n + 1, s => s ++ repeatStr n s

/-- Rust str::trim_end: drop trailing whitespace characters. -/
def trimEnd (s : String) : String :=
  String.mk ((s.data.reverse.dropWhile Char.isWhitespace).reverse)

/-- One line of OutputGenerator::generate_tree: indentation, base name
(last component of the absolute path, empty when absent), and a slash
marker for directories. -/
def treeLine (e : FileEntry) : String :=
  repeatStr (e.depth - 1) "    " ++ (e.path.getLast?.getD "")
    ++ (if e.is_dir then "/" else "")

/-- OutputGenerator::generate_tree from src/app/formatter.rs. -/
def generate_tree (entries : List FileEntry) : String :=
  trimEnd (String.join (entries.map (fun e => treeLine e ++ "\n")))

/-- The content block OutputGenerator::generate_content produces for one
entry: none for entries that are not content-eligible, otherwise the
file block on a successful read and the error marker block on a failed
read. -/
def contentBlock (readFile : List String → Except String String)
    (e : FileEntry) : Option String :=
  if e.include_content then
    some (match readFile e.path with
      | Except.ok content =>
          "<file path=\"" ++ e.relative_path ++ "\">\n" ++ content ++ "\n</file>"
      | Except.error msg =>
          "<file path=\"" ++ e.relative_path ++ "\" error=\"true\">Error reading file: "
            ++ msg ++ "</file>")
  else none

/-- Vec::join with a separator, as used for blocks.join in
generate_content. -/
def joinBlocks : List String → String
  | [] => ""
  | [b] => b
  | b :: bs => b ++ "\n\n" ++ joinBlocks bs

/-- OutputGenerator::generate_content from src/app/formatter.rs. -/
def generate_content (readFile : List String → Except String String)
    (entries : List FileEntry) : String :=
  joinBlocks (entries.filterMap (contentBlock readFile))

/-- OutputGenerator::format_full_output from src/app/formatter.rs. -/
def format_full_output (tree content : String) : String :=
  let out := "<directory_structure>\n" ++ tree ++ "\n</directory_structure>"
  if content = "" then out
  else out ++ "\n\n<file_contents>\n" ++ content ++ "\n</file_contents>"

/-- merge_vecs from src/app/config.rs: preset patterns first, caller
patterns appended, then retain with a seen-set, keeping only the first
occurrence of each pattern. -/
def merge_vecs (preset_vec cli_vec : Option (List String)) : List String :=
  let combined := preset_vec.getD [] ++ cli_vec.getD []
  (combined.foldl
    (fun (acc : List String × List String) item =>
      if item ∈ acc.2 then acc else (acc.1 ++ [item], item :: acc.2))
    ([], [])).1

/-- Observable outcome of one run: the document printed to stdout (none
when nothing is printed), the two warnings, and whether the process
exits with code zero. -/
structure RunResult where
  output : Option String
  warned_no_patterns : Bool
  warned_empty : Bool
  exit_zero : Bool
deriving DecidableEq, Repr

/-- run from src/app.rs, after successful configuration resolution and
glob compilation: warn when no include or tree-only patterns exist,
scan, return early (printing nothing) when the collection is empty,
otherwise render the tree and, unless tree-only mode is set, the
content, and print the assembled document. -/
def run (globMatch : String → String → Bool) (root : List String)
    (config : RuntimeConfig) (walk : List WalkItem)
    (readFile : List String → Except String String) : RunResult :=
  let warned_no_patterns := config.«include».isEmpty && config.include_in_tree.isEmpty
  let entries := scan globMatch root config walk
  if entries.isEmpty then
    { output := none
      warned_no_patterns := warned_no_patterns
      warned_empty := true
      exit_zero := true }
  else
    let tree_str := generate_tree entries
    let final_output :=
      if config.tree_only_output then
        "<directory_structure>\n" ++ tree_str ++ "\n</directory_structure>"
      else
        format_full_output tree_str (generate_content readFile entries)
    { output := some final_output
      warned_no_patterns := warned_no_patterns
      warned_empty := false
      exit_zero := true }

/-- Dedup keeping the first occurrence, stated structurally: keep the
head, remove its later copies, recurse.  Used to phrase the contract of
merge_vecs. -/
def dedupFirst : List String → List String
  | [] => []
  | a :: rest => a :: dedupFirst (rest.filter (fun x => x ≠ a))
termination_by l => l.length
decreasing_by
  exact Nat.lt_succ_of_le (List.length_filter_le _ _)

/-! Order properties of the path comparison used by the sort. -/

theorem charListLt_irrefl (l : List Char) : charListLt l l = false := by
  induction l with
  | nil => rfl
  | cons a as ih => simp [charListLt, lt_irrefl, ih]

theorem charListLt_trans {p q r : List Char} (h1 : charListLt p q = true)
    (h2 : charListLt q r = true) : charListLt p r = true := by
  induction p generalizing q r with
  | nil =>
    cases r with
    | nil => simp [charListLt] at h2
    | cons c cs => rfl
  | cons a as ih =>
    cases q with
    | nil => simp [charListLt] at h1
    | cons b bs =>
      cases r with
      | nil => simp [charListLt] at h2
      | cons c cs =>
        by_cases hab : a < b
        · by_cases hbc : b < c
          · simp [charListLt, lt_trans hab hbc]
          · by_cases hbc2 : b = c
            · subst hbc2; simp [charListLt, hab]
            · simp [charListLt, hbc, hbc2] at h2
        · by_cases hab2 : a = b
          · subst hab2
            simp only [charListLt, lt_irrefl, if_false, if_pos rfl] at h1
            by_cases hac : a < c
            · simp [charListLt, hac]
            · by_cases hac2 : a = c
              · subst hac2
                simp only [charListLt, lt_irrefl, if_false, if_pos rfl] at h2 ⊢
                exact ih h1 h2
              · simp [charListLt, hac, hac2] at h2
          · simp [charListLt, hab, hab2] at h1

theorem charListLt_trichotomy (p q : List Char) :
    charListLt p q = true ∨ p = q ∨ charListLt q p = true := by
  induction p generalizing q with
  | nil =>
    cases q with
    | nil => right; left; rfl
    | cons b bs => left; rfl
  | cons a as ih =>
    cases q with
    | nil => right; right; rfl
    | cons b bs =>
      rcases lt_trichotomy a b with h | h | h
      · left; simp [charListLt, h]
      · subst h
        rcases ih bs with h2 | h2 | h2
        · left; simp [charListLt, lt_irrefl, h2]
        · right; left; rw [h2]
        · right; right; simp [charListLt, lt_irrefl, h2]
      · right; right; simp [charListLt, h]

theorem str_eq_of_data_eq {a b : String} (h : a.data = b.data) : a = b := by
  cases a
  cases b
  exact congrArg String.mk h

theorem strLt_irrefl (a : String) : strLt a a = false :=
  charListLt_irrefl a.data

theorem strLt_trans {a b c : String} (h1 : strLt a b = true)
    (h2 : strLt b c = true) : strLt a c = true :=
  charListLt_trans h1 h2

theorem strLt_asymm {a b : String} (h : strLt a b = true) : strLt b a = false := by
  cases hba : strLt b a with
  | false => rfl
  | true =>
    have hcontra := strLt_trans h hba
    rw [strLt_irrefl] at hcontra
    exact absurd hcontra (by simp)

theorem strLt_trichotomy (a b : String) :
    strLt a b = true ∨ a = b ∨ strLt b a = true := by
  rcases charListLt_trichotomy a.data b.data with h | h | h
  · left; exact h
  · right; left; exact str_eq_of_data_eq h
  · right; right; exact h

theorem ne_of_strLt {a b : String} (h : strLt a b = true) : a ≠ b := by
  intro he
  subst he
  rw [strLt_irrefl] at h
  exact Bool.false_ne_true h

theorem pathLe_refl (p : List String) : pathLe p p = true := by
  induction p with
  | nil => rfl
  | cons a as ih => simp [pathLe, strLt_irrefl, ih]

theorem pathLe_total (p q : List String) : pathLe p q = true ∨ pathLe q p = true := by
  induction p generalizing q with
  | nil => left; rfl
  | cons a as ih =>
    cases q with
    | nil => right; rfl
    | cons b bs =>
      rcases strLt_trichotomy a b with h | h | h
      · left; simp [pathLe, h]
      · subst h
        rcases ih bs with h2 | h2
        · left; simp [pathLe, strLt_irrefl, h2]
        · right; simp [pathLe, strLt_irrefl, h2]
      · right; simp [pathLe, h]

theorem pathLe_trans {p q r : List String} (h1 : pathLe p q = true)
    (h2 : pathLe q r = true) : pathLe p r = true := by
  induction p generalizing q r with
  | nil => rfl
  | cons a as ih =>
    cases q with
    | nil => simp [pathLe] at h1
    | cons b bs =>
      cases r with
      | nil => simp [pathLe] at h2
      | cons c cs =>
        by_cases hab : strLt a b = true
        · by_cases hbc : strLt b c = true
          · simp [pathLe, strLt_trans hab hbc]
          · by_cases hbc2 : b = c
            · subst hbc2; simp [pathLe, hab]
            · simp [pathLe, hbc, hbc2] at h2
        · by_cases hab2 : a = b
          · subst hab2
            simp only [pathLe, strLt_irrefl, Bool.false_eq_true, if_false,
              if_pos rfl] at h1
            by_cases hac : strLt a c = true
            · simp [pathLe, hac]
            · by_cases hac2 : a = c
              · subst hac2
                simp only [pathLe, strLt_irrefl, Bool.false_eq_true, if_false,
                  if_pos rfl] at h2 ⊢
                exact ih h1 h2
              · simp [pathLe, hac, hac2] at h2
          · simp [pathLe, hab, hab2] at h1

theorem pathLe_antisymm {p q : List String} (h1 : pathLe p q = true)
    (h2 : pathLe q p = true) : p = q := by
  induction p generalizing q with
  | nil =>
    cases q with
    | nil => rfl
    | cons b bs => simp [pathLe] at h2
  | cons a as ih =>
    cases q with
    | nil => simp [pathLe] at h1
    | cons b bs =>
      by_cases hab : strLt a b = true
      · have hba : strLt b a = false := strLt_asymm hab
        have hba2 : ¬ b = a := fun h => absurd h.symm (ne_of_strLt hab)
        simp [pathLe, hba, hba2] at h2
      · by_cases hab2 : a = b
        · subst hab2
          simp only [pathLe, strLt_irrefl, Bool.false_eq_true, if_false,
            if_pos rfl] at h1 h2
          rw [ih h1 h2]
        · simp [pathLe, hab, hab2] at h1

theorem pathLe_self_append (p s : List String) : pathLe p (p ++ s) = true := by
  induction p with
  | nil => rfl
  | cons a as ih => simp [pathLe, strLt_irrefl, ih]

instance : IsTotal FileEntry entryLe :=
  ⟨fun a b => pathLe_total a.path b.path⟩

instance : IsTrans FileEntry entryLe :=
  ⟨fun _ _ _ h1 h2 => pathLe_trans h1 h2⟩

/-- Strict version of the sort order: ordered and with distinct paths. -/
def entryLt (a b : FileEntry) : Prop := entryLe a b ∧ a.path ≠ b.path

instance : IsAntisymm FileEntry entryLt :=
  ⟨fun _ _ h1 h2 => absurd (pathLe_antisymm h1.1 h2.1) h1.2⟩

/-! Characterisation of process_entry. -/

theorem process_entry_some_elim {globMatch : String → String → Bool}
    {root : List String} {config : RuntimeConfig} {item : WalkItem} {e : FileEntry}
    (h : process_entry globMatch root config item = some e) :
    item.path ≠ root ∧ item.path.any (fun c => c = ".git") = false ∧
    ∃ rel, relativeTo root item.path = some rel ∧
      e.path = item.path ∧ e.relative_path = joinPath rel ∧ e.depth = rel.length ∧
      e.is_dir = item.isDir ∧
      isMatch globMatch config.exclude (joinPath rel) = false ∧
      e.include_content =
        (!item.isDir && isMatch globMatch config.«include» (joinPath rel)
          && !isMatch globMatch config.include_in_tree (joinPath rel)) ∧
      (item.isDir = false →
        (isMatch globMatch config.«include» (joinPath rel)
          || isMatch globMatch config.include_in_tree (joinPath rel)) = true) := by
  unfold process_entry at h
  split at h
  · simp at h
  · split at h
    · simp at h
    · rename_i hroot hgit
      rw [Bool.not_eq_true] at hgit
      refine ⟨hroot, hgit, ?_⟩
      split at h
      · simp at h
      · rename_i rel hrel
        refine ⟨rel, hrel, ?_⟩
        dsimp only at h
        split at h
        · simp at h
        · rename_i hex
          rw [Bool.not_eq_true] at hex
          split at h
          · simp at h
          · rename_i hkeep
            rw [Option.some_inj] at h
            subst h
            refine ⟨rfl, rfl, rfl, rfl, hex, rfl, ?_⟩
            intro hf
            have hkf : (!item.isDir
                && !isMatch globMatch config.«include» (joinPath rel)
                && !isMatch globMatch config.include_in_tree (joinPath rel)) = false :=
              Bool.eq_false_iff.mpr hkeep
            rw [hf] at hkf
            cases hI : isMatch globMatch config.«include» (joinPath rel) with
            | true => rfl
            | false =>
              cases hT : isMatch globMatch config.include_in_tree (joinPath rel) with
              | true => rfl
              | false => rw [hI, hT] at hkf; simp at hkf

theorem process_entry_dir {globMatch : String → String → Bool}
    {root : List String} {config : RuntimeConfig} {item : WalkItem} {rel : List String}
    (hroot : item.path ≠ root)
    (hgit : item.path.any (fun c => c = ".git") = false)
    (hrel : relativeTo root item.path = some rel)
    (hex : isMatch globMatch config.exclude (joinPath rel) = false)
    (hdir : item.isDir = true) :
    process_entry globMatch root config item =
      some { path := item.path, relative_path := joinPath rel, depth := rel.length,
             is_dir := true, include_content := false } := by
  unfold process_entry
  rw [if_neg hroot, if_neg (by simp [hgit]), hrel]
  simp [hex, hdir]

theorem process_entry_file {globMatch : String → String → Bool}
    {root : List String} {config : RuntimeConfig} {item : WalkItem} {rel : List String}
    (hroot : item.path ≠ root)
    (hgit : item.path.any (fun c => c = ".git") = false)
    (hrel : relativeTo root item.path = some rel)
    (hex : isMatch globMatch config.exclude (joinPath rel) = false)
    (hfile : item.isDir = false)
    (hkeep : (isMatch globMatch config.«include» (joinPath rel)
      || isMatch globMatch config.include_in_tree (joinPath rel)) = true) :
    process_entry globMatch root config item =
      some { path := item.path, relative_path := joinPath rel, depth := rel.length,
             is_dir := false,
             include_content := isMatch globMatch config.«include» (joinPath rel)
               && !isMatch globMatch config.include_in_tree (joinPath rel) } := by
  unfold process_entry
  rw [if_neg hroot, if_neg (by simp [hgit]), hrel]
  cases h1 : isMatch globMatch config.«include» (joinPath rel) with
  | false =>
    cases h2 : isMatch globMatch config.include_in_tree (joinPath rel) with
    | false => rw [h1, h2] at hkeep; simp at hkeep
    | true => simp [hex, hfile, h1, h2]
  | true => simp [hex, hfile, h1]

/-! Properties of scan. -/

theorem mem_scan_iff {globMatch : String → String → Bool} {root : List String}
    {config : RuntimeConfig} {walk : List WalkItem} {e : FileEntry} :
    e ∈ scan globMatch root config walk ↔
      ∃ item, item ∈ walk ∧ process_entry globMatch root config item = some e := by
  unfold scan
  rw [(List.perm_insertionSort entryLe _).mem_iff]
  exact List.mem_filterMap

theorem scan_sorted (globMatch : String → String → Bool) (root : List String)
    (config : RuntimeConfig) (walk : List WalkItem) :
    (scan globMatch root config walk).Sorted entryLe :=
  List.sorted_insertionSort entryLe _

theorem path_of_process_entry {globMatch : String → String → Bool}
    {root : List String} {config : RuntimeConfig} {item : WalkItem} {e : FileEntry}
    (h : process_entry globMatch root config item = some e) : e.path = item.path := by
  obtain ⟨_, _, rel, _, hpath, _⟩ := process_entry_some_elim h
  exact hpath

theorem nodup_paths_scan {globMatch : String → String → Bool} {root : List String}
    {config : RuntimeConfig} {walk : List WalkItem}
    (h : (walk.map WalkItem.path).Nodup) :
    ((scan globMatch root config walk).map FileEntry.path).Nodup := by
  have hperm : ((scan globMatch root config walk).map FileEntry.path).Perm
      ((walk.filterMap (process_entry globMatch root config)).map FileEntry.path) :=
    (List.perm_insertionSort entryLe _).map _
  rw [hperm.nodup_iff]
  clear hperm
  induction walk with
  | nil => simp
  | cons a l ih =>
    rw [List.map_cons, List.nodup_cons] at h
    rw [List.filterMap_cons]
    cases hpe : process_entry globMatch root config a with
    | none => exact ih h.2
    | some e =>
      rw [List.map_cons, List.nodup_cons]
      refine ⟨?_, ih h.2⟩
      intro hmem
      rw [List.mem_map] at hmem
      obtain ⟨e2, he2, hpath⟩ := hmem
      rw [List.mem_filterMap] at he2
      obtain ⟨item, hitem, hpe2⟩ := he2
      apply h.1
      rw [List.mem_map]
      refine ⟨item, hitem, ?_⟩
      rw [← path_of_process_entry hpe2, hpath, path_of_process_entry hpe]

theorem scan_pairwise_lt {globMatch : String → String → Bool} {root : List String}
    {config : RuntimeConfig} {walk : List WalkItem}
    (h : (walk.map WalkItem.path).Nodup) :
    (scan globMatch root config walk).Pairwise entryLt := by
  have h1 : (scan globMatch root config walk).Pairwise entryLe :=
    scan_sorted globMatch root config walk
  have h2 : (scan globMatch root config walk).Pairwise
      (fun a b : FileEntry => a.path ≠ b.path) := by
    have hnd := @nodup_paths_scan globMatch root config walk h
    rw [List.Nodup, List.pairwise_map] at hnd
    exact hnd
  exact (h1.and h2).imp (fun hab => ⟨hab.1, hab.2⟩)

theorem scan_perm_invariant {globMatch : String → String → Bool} {root : List String}
    {config : RuntimeConfig} {walk1 walk2 : List WalkItem}
    (hperm : walk1.Perm walk2) (hnd : (walk1.map WalkItem.path).Nodup) :
    scan globMatch root config walk1 = scan globMatch root config walk2 := by
  have hmp : ((walk1.filterMap (process_entry globMatch root config)).Perm
      (walk2.filterMap (process_entry globMatch root config))) :=
    hperm.filterMap _
  have hp : (scan globMatch root config walk1).Perm (scan globMatch root config walk2) :=
    ((List.perm_insertionSort entryLe _).trans hmp).trans
      (List.perm_insertionSort entryLe _).symm
  have hnd2 : (walk2.map WalkItem.path).Nodup := ((hperm.map _).nodup_iff).mp hnd
  exact List.eq_of_perm_of_sorted hp (scan_pairwise_lt hnd) (scan_pairwise_lt hnd2)

/-! Properties of the content renderer. -/

theorem contentBlock_of_not_eligible {readFile : List String → Except String String}
    {e : FileEntry} (h : e.include_content = false) :
    contentBlock readFile e = none := by
  unfold contentBlock
  rw [if_neg (by simp [h])]

theorem contentBlock_length_pos {readFile : List String → Except String String}
    {e : FileEntry} {b : String} (h : contentBlock readFile e = some b) :
    0 < b.length := by
  unfold contentBlock at h
  split at h
  · cases hread : readFile e.path with
    | ok content =>
      rw [hread] at h
      rw [Option.some_inj] at h
      have hl := congrArg String.length h
      simp only [String.length_append] at hl
      have h12 : ("<file path=\"" : String).length = 12 := by decide
      rw [h12] at hl
      omega
    | error msg =>
      rw [hread] at h
      rw [Option.some_inj] at h
      have hl := congrArg String.length h
      simp only [String.length_append] at hl
      have h12 : ("<file path=\"" : String).length = 12 := by decide
      rw [h12] at hl
      omega
  · simp at h

theorem joinBlocks_cons_length_pos {b : String} {bs : List String}
    (hb : 0 < b.length) : 0 < (joinBlocks (b :: bs)).length := by
  cases bs with
  | nil => exact hb
  | cons c cs =>
    simp only [joinBlocks, String.length_append]
    omega

theorem generate_content_ne_empty {readFile : List String → Except String String}
    {entries : List FileEntry}
    (h : entries.filterMap (contentBlock readFile) ≠ []) :
    generate_content readFile entries ≠ "" := by
  unfold generate_content
  cases hfm : entries.filterMap (contentBlock readFile) with
  | nil => exact absurd hfm h
  | cons b bs =>
    have hbmem : b ∈ entries.filterMap (contentBlock readFile) := by
      rw [hfm]; exact List.mem_cons_self b bs
    rw [List.mem_filterMap] at hbmem
    obtain ⟨e, _, he⟩ := hbmem
    have hpos := @joinBlocks_cons_length_pos b bs (contentBlock_length_pos he)
    intro hcontra
    rw [hcontra] at hpos
    exact absurd hpos (by decide)

theorem generate_content_of_none_eligible {readFile : List String → Except String String}
    {entries : List FileEntry}
    (h : ∀ e ∈ entries, e.include_content = false) :
    generate_content readFile entries = "" := by
  unfold generate_content
  have hfm : entries.filterMap (contentBlock readFile) = [] := by
    rw [List.filterMap_eq_nil_iff]
    intro e he
    exact contentBlock_of_not_eligible (h e he)
  rw [hfm]
  rfl

/-! Properties of the configuration merge. -/

/-- Dedup keeping first occurrences while skipping anything already in
the seen accumulator; intermediate device relating the foldl in
merge_vecs to dedupFirst. -/
def dedupAvoid (seen : List String) : List String → List String
  | [] => []
  | a :: rest =>
    if a ∈ seen then dedupAvoid seen rest else a :: dedupAvoid (a :: seen) rest

theorem foldl_dedup (l : List String) : ∀ (done seen : List String),
    (l.foldl
      (fun (acc : List String × List String) item =>
        if item ∈ acc.2 then acc else (acc.1 ++ [item], item :: acc.2))
      (done, seen)).1 = done ++ dedupAvoid seen l := by
  induction l with
  | nil => intro done seen; simp [dedupAvoid]
  | cons a rest ih =>
    intro done seen
    rw [List.foldl_cons]
    by_cases h : a ∈ seen
    · rw [if_pos h]
      rw [ih done seen]
      rw [dedupAvoid, if_pos h]
    · rw [if_neg h]
      rw [ih (done ++ [a]) (a :: seen)]
      rw [dedupAvoid, if_neg h]
      simp [List.append_assoc]

theorem dedupAvoid_eq (l : List String) : ∀ (seen : List String),
    dedupAvoid seen l = dedupFirst (l.filter (fun x => decide (x ∉ seen))) := by
  induction l with
  | nil => intro seen; simp [dedupAvoid, dedupFirst]
  | cons a rest ih =>
    intro seen
    by_cases h : a ∈ seen
    · rw [dedupAvoid, if_pos h, List.filter_cons, if_neg (by simp [h])]
      exact ih seen
    · rw [dedupAvoid, if_neg h, List.filter_cons, if_pos (by simp [h])]
      rw [dedupFirst, ih (a :: seen)]
      have hfilters : rest.filter (fun x => decide (x ∉ a :: seen)) =
          (rest.filter (fun x => decide (x ∉ seen))).filter (fun x => x ≠ a) := by
        rw [List.filter_filter]
        apply List.filter_congr
        intro x _
        by_cases hxa : x = a <;> by_cases hxs : x ∈ seen <;> simp [hxa, hxs]
      rw [hfilters]

theorem merge_vecs_eq_dedupFirst (preset_vec cli_vec : Option (List String)) :
    merge_vecs preset_vec cli_vec = dedupFirst (preset_vec.getD [] ++ cli_vec.getD []) := by
  unfold merge_vecs
  rw [foldl_dedup _ [] [], dedupAvoid_eq _ []]
  simp

/-- Shared helper: an excluded relative path is dropped by
process_entry. -/
theorem process_entry_excluded_none {globMatch : String → String → Bool}
    {root : List String} {config : RuntimeConfig} {item : WalkItem} {rel : List String}
    (hrel : relativeTo root item.path = some rel)
    (hex : isMatch globMatch config.exclude (joinPath rel) = true) :
    process_entry globMatch root config item = none := by
  unfold process_entry
  split
  · rfl
  · split
    · rfl
    · rw [hrel]
      dsimp only
      rw [if_pos hex]

/-- Concrete single-pattern matcher used by the witnesses: a pattern
matches exactly the relative path equal to it. -/
def gmEq (p s : String) : Bool := p == s

/-! The claims. -/

/-- C7: configuration resolution appends the explicit pattern list after
the preset pattern list and deduplicates preserving the first
occurrence; merging preset patterns named src with an explicit markdown
pattern keeps both in order, and a repeated pattern keeps only its first
occurrence. -/
theorem C7_merge_appends_then_dedups :
    (∀ preset_vec cli_vec : Option (List String),
      merge_vecs preset_vec cli_vec =
        dedupFirst (preset_vec.getD [] ++ cli_vec.getD [])) ∧
    merge_vecs (some ["src/**"]) (some ["*.md"]) = ["src/**", "*.md"] ∧
    merge_vecs (some ["src/**"]) (some ["src/**", "*.md"]) = ["src/**", "*.md"] := by
  refine ⟨merge_vecs_eq_dedupFirst, ?_, ?_⟩ <;> decide

/-- C3: exclusion has absolute precedence: a path whose relative path
matches the exclude matcher is dropped by process_entry whatever else it
matches, and consequently every entry of the classified collection has
an exclude-matcher-negative relative path. -/
theorem C3_exclude_absolute_precedence
    {globMatch : String → String → Bool} {root : List String}
    {config : RuntimeConfig} :
    (∀ (item : WalkItem) (rel : List String),
      relativeTo root item.path = some rel →
      isMatch globMatch config.exclude (joinPath rel) = true →
      process_entry globMatch root config item = none) ∧
    (∀ (walk : List WalkItem) (e : FileEntry),
      e ∈ scan globMatch root config walk →
      isMatch globMatch config.exclude e.relative_path = false) := by
  constructor
  · intro item rel hrel hex
    exact process_entry_excluded_none hrel hex
  · intro walk e he
    obtain ⟨item, _, hpe⟩ := mem_scan_iff.mp he
    obtain ⟨_, _, rel, _, _, hrelpath, _, _, hex, _⟩ := process_entry_some_elim hpe
    rw [hrelpath]
    exact hex

/-- Witness for C3 at a concrete scan: the single classified entry of a
one-file walk has an exclude-negative relative path. -/
theorem C3_witness :
    isMatch gmEq ["x"]
      (FileEntry.mk ["r", "b.txt"] "b.txt" 1 false true).relative_path = false := by
  have h := (@C3_exclude_absolute_precedence gmEq ["r"]
    (RuntimeConfig.mk ["b.txt"] ["x"] [] false)).2
    [WalkItem.mk ["r", "b.txt"] false]
    (FileEntry.mk ["r", "b.txt"] "b.txt" 1 false true)
    (by decide)
  exact h

/-- C2: a file whose relative path matches both the include matcher and
the tree-only matcher and not the exclude matcher is kept in the
classified collection (so it is rendered in the tree), is not
content-eligible, and yields no content block: the tree-only match
vetoes content. -/
theorem C2_tree_only_vetoes_content
    {globMatch : String → String → Bool} {root : List String}
    {config : RuntimeConfig} {walk : List WalkItem} {item : WalkItem}
    {rel : List String}
    (hmem : item ∈ walk)
    (hfile : item.isDir = false)
    (hroot : item.path ≠ root)
    (hgit : item.path.any (fun c => c = ".git") = false)
    (hrel : relativeTo root item.path = some rel)
    (hex : isMatch globMatch config.exclude (joinPath rel) = false)
    (hinc : isMatch globMatch config.«include» (joinPath rel) = true)
    (htree : isMatch globMatch config.include_in_tree (joinPath rel) = true) :
    ∃ e, process_entry globMatch root config item = some e ∧
      e ∈ scan globMatch root config walk ∧
      e.path = item.path ∧
      e.include_content = false ∧
      ∀ readFile, contentBlock readFile e = none := by
  have hpe := process_entry_file hroot hgit hrel hex hfile (by rw [hinc, htree]; rfl)
  rw [hinc, htree] at hpe
  refine ⟨_, hpe, mem_scan_iff.mpr ⟨item, hmem, hpe⟩, rfl, rfl, ?_⟩
  intro readFile
  exact contentBlock_of_not_eligible rfl

/-- Witness for C2: a file matching both the include and tree-only
matchers is classified, not content-eligible, and blockless. -/
theorem C2_witness :
    ∃ e, process_entry gmEq ["r"] (RuntimeConfig.mk ["a"] [] ["a"] false)
        (WalkItem.mk ["r", "a"] false) = some e ∧
      e ∈ scan gmEq ["r"] (RuntimeConfig.mk ["a"] [] ["a"] false)
        [WalkItem.mk ["r", "a"] false] ∧
      e.path = ["r", "a"] ∧
      e.include_content = false ∧
      ∀ readFile, contentBlock readFile e = none :=
  @C2_tree_only_vetoes_content gmEq ["r"] (RuntimeConfig.mk ["a"] [] ["a"] false)
    [WalkItem.mk ["r", "a"] false] (WalkItem.mk ["r", "a"] false) ["a"]
    (by decide) rfl (by decide) (by decide) (by decide) (by decide)
    (by decide) (by decide)

/-- C5: when reading a content-eligible entry fails, the renderer emits
the exact error marker block in place of the content block and keeps
rendering the remaining entries. -/
theorem C5_read_failure_error_marker
    {readFile : List String → Except String String} {e : FileEntry} {msg : String}
    (l1 l2 : List FileEntry)
    (helig : e.include_content = true)
    (hread : readFile e.path = Except.error msg) :
    contentBlock readFile e =
      some ("<file path=\"" ++ e.relative_path
        ++ "\" error=\"true\">Error reading file: " ++ msg ++ "</file>") ∧
    generate_content readFile (l1 ++ e :: l2) =
      joinBlocks (l1.filterMap (contentBlock readFile)
        ++ ("<file path=\"" ++ e.relative_path
            ++ "\" error=\"true\">Error reading file: " ++ msg ++ "</file>")
          :: l2.filterMap (contentBlock readFile)) := by
  have hblock : contentBlock readFile e =
      some ("<file path=\"" ++ e.relative_path
        ++ "\" error=\"true\">Error reading file: " ++ msg ++ "</file>") := by
    unfold contentBlock
    rw [if_pos helig, hread]
  refine ⟨hblock, ?_⟩
  unfold generate_content
  rw [List.filterMap_append, List.filterMap_cons, hblock]

/-- Witness for C5: a one-entry render with a failing read produces
exactly the error marker document. -/
theorem C5_witness :
    contentBlock (fun _ => Except.error "denied")
        (FileEntry.mk ["r", "x"] "x" 1 false true) =
      some ("<file path=\"" ++ "x"
        ++ "\" error=\"true\">Error reading file: " ++ "denied" ++ "</file>") ∧
    generate_content (fun _ => Except.error "denied")
        ([] ++ FileEntry.mk ["r", "x"] "x" 1 false true :: []) =
      joinBlocks (List.filterMap (contentBlock (fun _ => Except.error "denied")) []
        ++ ("<file path=\"" ++ "x"
            ++ "\" error=\"true\">Error reading file: " ++ "denied" ++ "</file>")
          :: List.filterMap (contentBlock (fun _ => Except.error "denied")) []) :=
  C5_read_failure_error_marker [] [] rfl rfl

/-- C9: the program is deterministic in the walker's visit order: two
runs over walks that are permutations of each other (one filesystem
snapshot) with the same configuration produce identical results, output
document included. -/
theorem C9_deterministic_output
    {globMatch : String → String → Bool} {root : List String}
    {config : RuntimeConfig} {readFile : List String → Except String String}
    {walk1 walk2 : List WalkItem}
    (hperm : walk1.Perm walk2)
    (hnd : (walk1.map WalkItem.path).Nodup) :
    run globMatch root config walk1 readFile =
      run globMatch root config walk2 readFile := by
  unfold run
  rw [scan_perm_invariant hperm hnd]

/-- Witness for C9: two visit orders of the same two files give the
same run result. -/
theorem C9_witness :
    run gmEq ["r"] (RuntimeConfig.mk ["a", "b"] [] [] false)
        [WalkItem.mk ["r", "a"] false, WalkItem.mk ["r", "b"] false]
        (fun _ => Except.ok "text") =
      run gmEq ["r"] (RuntimeConfig.mk ["a", "b"] [] [] false)
        [WalkItem.mk ["r", "b"] false, WalkItem.mk ["r", "a"] false]
        (fun _ => Except.ok "text") :=
  C9_deterministic_output (by decide) (by decide)

/-- C4: the classified collection is strictly ordered by absolute path,
and in that order every directory entry precedes each of its proper
descendants. -/
theorem C4_sorted_parent_before_child
    {globMatch : String → String → Bool} {root : List String}
    {config : RuntimeConfig} {walk : List WalkItem}
    (hnd : (walk.map WalkItem.path).Nodup) :
    (scan globMatch root config walk).Pairwise entryLt ∧
    ∀ (i j : Fin (scan globMatch root config walk).length) (s : List String),
      ((scan globMatch root config walk).get i).is_dir = true →
      ((scan globMatch root config walk).get j).path =
        ((scan globMatch root config walk).get i).path ++ s →
      s ≠ [] → (i : Nat) < (j : Nat) := by
  refine ⟨@scan_pairwise_lt globMatch root config walk hnd, ?_⟩
  intro i j s _ hpath hs
  by_contra hij
  push_neg at hij
  rcases Nat.lt_or_ge (j : Nat) (i : Nat) with hlt | hge
  · have hpl := (List.pairwise_iff_get.mp
      (@scan_pairwise_lt globMatch root config walk hnd)) j i hlt
    have hle2 : pathLe ((scan globMatch root config walk).get i).path
        ((scan globMatch root config walk).get j).path = true := by
      rw [hpath]
      exact pathLe_self_append _ _
    exact hpl.2 (pathLe_antisymm hpl.1 hle2)
  · have hij2 : i = j := Fin.ext (Nat.le_antisymm hge hij)
    rw [← hij2] at hpath
    have hlen := congrArg List.length hpath
    rw [List.length_append] at hlen
    have hs0 : s.length = 0 := by omega
    exact hs (List.eq_nil_of_length_eq_zero hs0)

/-- Witness for C4: on a directory and a file beneath it the collection
is strictly sorted and the directory index precedes the descendant
index. -/
theorem C4_witness :
    (scan gmEq ["r"] (RuntimeConfig.mk ["a/b"] [] [] false)
      [WalkItem.mk ["r", "a"] true, WalkItem.mk ["r", "a", "b"] false]).Pairwise
        entryLt ∧
    (0 : Nat) < 1 := by
  have h := @C4_sorted_parent_before_child gmEq ["r"]
    (RuntimeConfig.mk ["a/b"] [] [] false)
    [WalkItem.mk ["r", "a"] true, WalkItem.mk ["r", "a", "b"] false] (by decide)
  exact ⟨h.1, h.2 ⟨0, by decide⟩ ⟨1, by decide⟩ ["b"] (by decide) (by decide) (by decide)⟩

/-- C6: the document is the tree text wrapped in the
directory_structure delimiter; tree-only mode stops there
unconditionally; otherwise the file_contents section is appended after
a blank line exactly when at least one content block was produced, and
is absent entirely when no blocks exist. -/
theorem C6_document_assembly
    {globMatch : String → String → Bool} {root : List String}
    {config : RuntimeConfig} {walk : List WalkItem}
    {readFile : List String → Except String String}
    (hne : scan globMatch root config walk ≠ []) :
    (config.tree_only_output = true →
      (run globMatch root config walk readFile).output =
        some ("<directory_structure>\n"
          ++ generate_tree (scan globMatch root config walk)
          ++ "\n</directory_structure>")) ∧
    (config.tree_only_output = false →
      ((scan globMatch root config walk).filterMap (contentBlock readFile) = [] →
        (run globMatch root config walk readFile).output =
          some ("<directory_structure>\n"
            ++ generate_tree (scan globMatch root config walk)
            ++ "\n</directory_structure>")) ∧
      ((scan globMatch root config walk).filterMap (contentBlock readFile) ≠ [] →
        (run globMatch root config walk readFile).output =
          some ("<directory_structure>\n"
            ++ generate_tree (scan globMatch root config walk)
            ++ "\n</directory_structure>"
            ++ "\n\n<file_contents>\n"
            ++ generate_content readFile (scan globMatch root config walk)
            ++ "\n</file_contents>"))) := by
  have hiso : ¬ ((scan globMatch root config walk).isEmpty = true) := by
    cases hsc : scan globMatch root config walk with
    | nil => exact absurd hsc hne
    | cons a as => simp
  constructor
  · intro htree
    unfold run
    dsimp only
    rw [if_neg hiso, if_pos htree]
  · intro htree
    constructor
    · intro hfm
      have hcontent : generate_content readFile (scan globMatch root config walk) = "" := by
        unfold generate_content
        rw [hfm]
        rfl
      unfold run
      dsimp only
      rw [if_neg hiso, if_neg (by rw [htree]; exact Bool.false_ne_true)]
      unfold format_full_output
      dsimp only
      rw [hcontent, if_pos rfl]
    · intro hfm
      have hcontent := generate_content_ne_empty hfm
      unfold run
      dsimp only
      rw [if_neg hiso, if_neg (by rw [htree]; exact Bool.false_ne_true)]
      unfold format_full_output
      dsimp only
      rw [if_neg hcontent]

/-- Witness for C6 in tree-only mode: the output is exactly the wrapped
tree even though a content-eligible file exists. -/
theorem C6_witness :
    (run gmEq ["r"] (RuntimeConfig.mk ["a"] [] [] true)
      [WalkItem.mk ["r", "a"] false] (fun _ => Except.ok "text")).output =
      some ("<directory_structure>\n"
        ++ generate_tree (scan gmEq ["r"] (RuntimeConfig.mk ["a"] [] [] true)
            [WalkItem.mk ["r", "a"] false])
        ++ "\n</directory_structure>") :=
  (C6_document_assembly (by decide)).1 rfl

/-- C8: any path with a .git component is dropped unconditionally, so
the version-control metadata directory and everything beneath it never
reach the classified collection, while any other path, hidden dotfiles
included, goes through the ordinary classification and a dot-named file
matching include is kept. -/
theorem C8_git_always_pruned_dotfiles_visible
    {globMatch : String → String → Bool} {root : List String}
    {config : RuntimeConfig} {walk : List WalkItem} :
    (∀ item : WalkItem, item.path.any (fun c => c = ".git") = true →
      process_entry globMatch root config item = none) ∧
    (∀ e ∈ scan globMatch root config walk,
      e.path.any (fun c => c = ".git") = false) ∧
    (∀ (item : WalkItem) (rel : List String), item ∈ walk →
      item.path.any (fun c => c = ".git") = false →
      item.path ≠ root →
      relativeTo root item.path = some rel →
      isMatch globMatch config.exclude (joinPath rel) = false →
      item.isDir = false →
      isMatch globMatch config.«include» (joinPath rel) = true →
      ∃ e, process_entry globMatch root config item = some e ∧
        e ∈ scan globMatch root config walk ∧ e.path = item.path) := by
  refine ⟨?_, ?_, ?_⟩
  · intro item hgit
    unfold process_entry
    by_cases hroot : item.path = root
    · rw [if_pos hroot]
    · rw [if_neg hroot, if_pos hgit]
  · intro e he
    obtain ⟨item, _, hpe⟩ := mem_scan_iff.mp he
    obtain ⟨_, hgit, _⟩ := process_entry_some_elim hpe
    rw [path_of_process_entry hpe]
    exact hgit
  · intro item rel hmem hgit hroot hrel hex hfile hinc
    have hpe := process_entry_file hroot hgit hrel hex hfile (by rw [hinc]; rfl)
    exact ⟨_, hpe, mem_scan_iff.mpr ⟨item, hmem, hpe⟩, rfl⟩

/-- Witness for C8: with a .git directory and a .env dotfile in the
walk, the dotfile matching include is classified and kept. -/
theorem C8_witness :
    ∃ e, process_entry gmEq ["r"] (RuntimeConfig.mk [".env"] [] [] false)
        (WalkItem.mk ["r", ".env"] false) = some e ∧
      e ∈ scan gmEq ["r"] (RuntimeConfig.mk [".env"] [] [] false)
        [WalkItem.mk ["r", ".git"] true, WalkItem.mk ["r", ".git", "config"] false,
         WalkItem.mk ["r", ".env"] false] ∧
      e.path = ["r", ".env"] :=
  (@C8_git_always_pruned_dotfiles_visible gmEq ["r"]
    (RuntimeConfig.mk [".env"] [] [] false)
    [WalkItem.mk ["r", ".git"] true, WalkItem.mk ["r", ".git", "config"] false,
     WalkItem.mk ["r", ".env"] false]).2.2
    (WalkItem.mk ["r", ".env"] false) [".env"]
    (by decide) (by decide) (by decide) (by decide) (by decide) rfl (by decide)

/-- C10: exclusion is applied per entry, not as a subtree prune: a
directory matching exclude is itself dropped, yet a descendant file
whose own relative path is not excluded and matches include is still
classified and kept in the collection. -/
theorem C10_exclusion_per_entry
    {globMatch : String → String → Bool} {root : List String}
    {config : RuntimeConfig} {walk : List WalkItem} {d f : WalkItem}
    {reld relf s : List String}
    (hfmem : f ∈ walk)
    (hreld : relativeTo root d.path = some reld)
    (hdex : isMatch globMatch config.exclude (joinPath reld) = true)
    (_hdesc : f.path = d.path ++ s)
    (_hs : s ≠ [])
    (hfroot : f.path ≠ root)
    (hfgit : f.path.any (fun c => c = ".git") = false)
    (hrelf : relativeTo root f.path = some relf)
    (hfex : isMatch globMatch config.exclude (joinPath relf) = false)
    (hffile : f.isDir = false)
    (hfinc : isMatch globMatch config.«include» (joinPath relf) = true) :
    process_entry globMatch root config d = none ∧
    ∃ e, process_entry globMatch root config f = some e ∧
      e ∈ scan globMatch root config walk ∧ e.path = f.path ∧
      (isMatch globMatch config.include_in_tree (joinPath relf) = false →
        e.include_content = true) := by
  refine ⟨process_entry_excluded_none hreld hdex, ?_⟩
  have hpe := process_entry_file hfroot hfgit hrelf hfex hffile (by rw [hfinc]; rfl)
  refine ⟨_, hpe, mem_scan_iff.mpr ⟨f, hfmem, hpe⟩, rfl, ?_⟩
  intro htree
  simp [hfinc, htree]

/-- Witness for C10: directory a is excluded while a/b.txt survives
with content eligibility. -/
theorem C10_witness :
    process_entry gmEq ["r"] (RuntimeConfig.mk ["a/b.txt"] ["a"] [] false)
      (WalkItem.mk ["r", "a"] true) = none ∧
    ∃ e, process_entry gmEq ["r"] (RuntimeConfig.mk ["a/b.txt"] ["a"] [] false)
        (WalkItem.mk ["r", "a", "b.txt"] false) = some e ∧
      e ∈ scan gmEq ["r"] (RuntimeConfig.mk ["a/b.txt"] ["a"] [] false)
        [WalkItem.mk ["r", "a"] true, WalkItem.mk ["r", "a", "b.txt"] false] ∧
      e.path = ["r", "a", "b.txt"] ∧
      (isMatch gmEq [] (joinPath ["a", "b.txt"]) = false →
        e.include_content = true) :=
  @C10_exclusion_per_entry gmEq ["r"] (RuntimeConfig.mk ["a/b.txt"] ["a"] [] false)
    [WalkItem.mk ["r", "a"] true, WalkItem.mk ["r", "a", "b.txt"] false]
    (WalkItem.mk ["r", "a"] true) (WalkItem.mk ["r", "a", "b.txt"] false)
    ["a"] ["a", "b.txt"] ["b.txt"]
    (by decide) (by decide) (by decide) (by decide) (by decide) (by decide)
    (by decide) (by decide) (by decide) rfl (by decide)

/-- C1, counterexample to the claim as stated: with empty include and
tree-only pattern lists the classified collection is not empty whenever
a non-excluded subdirectory exists (directories are always retained),
and when the collection is empty the program prints no output at all
rather than an empty tree section. -/
theorem C1_counterexample :
    scan gmEq ["r"] (RuntimeConfig.mk [] [] [] false)
      [WalkItem.mk ["r"] true, WalkItem.mk ["r", "a"] true] ≠ [] ∧
    (run gmEq ["r"] (RuntimeConfig.mk [] [] [] false)
      [WalkItem.mk ["r"] true] (fun _ => Except.error "io")).output = none := by
  constructor
  · decide
  · decide

/-- C1, amended: with empty include and tree-only pattern lists every
classified entry is a directory and none is content-eligible; the
no-patterns warning is emitted and the exit code is zero; when the
collection is empty the program warns and prints nothing (no tree
section); when it is not empty and tree-only mode is off the output is
the tree section alone with no content section. -/
theorem C1_empty_patterns_amended
    {globMatch : String → String → Bool} {root : List String}
    {config : RuntimeConfig} {walk : List WalkItem}
    {readFile : List String → Except String String}
    (hinc : config.«include» = [])
    (htree : config.include_in_tree = []) :
    (∀ e ∈ scan globMatch root config walk,
      e.is_dir = true ∧ e.include_content = false) ∧
    (run globMatch root config walk readFile).warned_no_patterns = true ∧
    (run globMatch root config walk readFile).exit_zero = true ∧
    (scan globMatch root config walk = [] →
      (run globMatch root config walk readFile).output = none ∧
      (run globMatch root config walk readFile).warned_empty = true) ∧
    (scan globMatch root config walk ≠ [] → config.tree_only_output = false →
      (run globMatch root config walk readFile).output =
        some ("<directory_structure>\n"
          ++ generate_tree (scan globMatch root config walk)
          ++ "\n</directory_structure>")) := by
  have hentry : ∀ e ∈ scan globMatch root config walk,
      e.is_dir = true ∧ e.include_content = false := by
    intro e he
    obtain ⟨item, _, hpe⟩ := mem_scan_iff.mp he
    obtain ⟨_, _, rel, _, _, _, _, hisdir, _, hic, hkeep⟩ := process_entry_some_elim hpe
    have hincm : isMatch globMatch config.«include» (joinPath rel) = false := by
      rw [hinc]; rfl
    have htreem : isMatch globMatch config.include_in_tree (joinPath rel) = false := by
      rw [htree]; rfl
    constructor
    · rw [hisdir]
      cases hd : item.isDir with
      | true => rfl
      | false =>
        have := hkeep hd
        rw [hincm, htreem] at this
        simp at this
    · rw [hic, hincm]
      simp
  refine ⟨hentry, ?_, ?_, ?_, ?_⟩
  · unfold run
    dsimp only
    split <;> simp [hinc, htree]
  · unfold run
    dsimp only
    split <;> rfl
  · intro hscan
    unfold run
    dsimp only
    rw [if_pos (by rw [hscan]; rfl)]
    exact ⟨rfl, rfl⟩
  · intro hne htreeonly
    have hiso : ¬ ((scan globMatch root config walk).isEmpty = true) := by
      cases hsc : scan globMatch root config walk with
      | nil => exact absurd hsc hne
      | cons a as => simp
    have hcontent : generate_content readFile (scan globMatch root config walk) = "" :=
      generate_content_of_none_eligible (fun e he => (hentry e he).2)
    unfold run
    dsimp only
    rw [if_neg hiso, if_neg (by rw [htreeonly]; exact Bool.false_ne_true)]
    unfold format_full_output
    dsimp only
    rw [hcontent, if_pos rfl]

/-- Witness for C1 as amended: empty patterns over a walk with one
subdirectory give only-directory entries, the no-patterns warning, exit
zero, and a tree-only document. -/
theorem C1_amended_witness :
    (run gmEq ["r"] (RuntimeConfig.mk [] [] [] false)
      [WalkItem.mk ["r"] true, WalkItem.mk ["r", "a"] true]
      (fun _ => Except.error "io")).warned_no_patterns = true ∧
    (run gmEq ["r"] (RuntimeConfig.mk [] [] [] false)
      [WalkItem.mk ["r"] true, WalkItem.mk ["r", "a"] true]
      (fun _ => Except.error "io")).exit_zero = true :=
  ⟨(C1_empty_patterns_amended rfl rfl).2.1, (C1_empty_patterns_amended rfl rfl).2.2.1⟩

end RustContext
